import Mathlib

/-!
Shallow embedding of the release-manager deployment core:
`application/services/deployment_service.py` (the engine wired in `main.py`),
`application/services/environment_service.py` (diff), `routers/api.py`
(rollback endpoint), `poller.py` (manifest poller) and the persistence
helpers of `database.py` they rely on.

Datetimes are modelled as `Nat` ticks of the injectable clock; the SQLite
tables become in-memory lists carried in an explicit `EngineState`; the
container orchestrator and the Docker health probe are oracle functions
passed as parameters; Python exceptions become an `Except` result.
-/

namespace ReleaseManager

/-- `DeploymentStatusType` literal from `models.py`. -/
inductive DStatus where
  | pending
  | inProgress
  | success
  | failed
  | rolledBack
deriving DecidableEq, Repr

/-- `HealthStatusType` literal from `models.py`. -/
inductive HStatus where
  | healthy
  | unhealthy
  | unknown
deriving DecidableEq, Repr

/-- `ChangeType` literal from `models.py`. -/
inductive ChangeType where
  | versionBump
  | noChange
  | newService
  | removedService
deriving DecidableEq, Repr

/-- One row of the `deployment_history` table (`DeploymentHistory` in `models.py`). -/
structure HistoryEntry where
  id : Nat
  environment : String
  serviceName : String
  version : String
  commitSha : String
  status : DStatus
  deployedBy : String
  errorMessage : Option String
  startedAt : Nat
  completedAt : Option Nat
  durationSeconds : Option Int
deriving DecidableEq, Repr

/-- One row of the `deployments` table (`Deployment` in `models.py`),
unique per `(environment, serviceName)`. -/
structure DeploymentRecord where
  environment : String
  serviceName : String
  version : String
  commitSha : String
  deployedAt : Nat
  deployedBy : String
deriving DecidableEq, Repr

/-- One row of the `service_health` table (`ServiceHealth` in `models.py`). -/
structure ServiceHealth where
  environment : String
  serviceName : String
  status : HStatus
  lastChecked : Nat
  errorMessage : Option String
deriving DecidableEq, Repr

/-- `EnvironmentState` from `models.py`; `services` is the Python dict as an
insertion-ordered association list. -/
structure EnvironmentState where
  commitSha : String
  deployedAt : Nat
  services : List (String × String)
deriving DecidableEq, Repr

/-- `ServiceDiff` from `models.py`. -/
structure ServiceDiff where
  service : String
  prodVersion : Option String
  preprodVersion : Option String
  changeType : ChangeType
deriving DecidableEq, Repr

/-- The mutable state threaded through the engine: the three SQLite tables,
the autoincrement counter of `deployment_history`, a log of individual
health-probe invocations (`docker.get_service_health` calls), the engine's
`_active_environment` marker and the injected clock. -/
structure EngineState where
  history : List HistoryEntry
  nextId : Nat
  deployments : List DeploymentRecord
  healthRows : List ServiceHealth
  probeLog : List (String × String)
  activeEnvironment : Option String
  clock : Nat
deriving DecidableEq, Repr

/-- Errors surfaced by the engine and the rollback endpoint:
`RuntimeError("Deployment already in progress for ...")`, `ValueError`
from validation, and the router's 400/404 responses. -/
inductive RmError where
  | inProgress (env : String)
  | invalidRequest (msg : String)
  | badRequest (msg : String)
  | notFound (msg : String)
deriving DecidableEq, Repr

/-- The health-payload entry of a Python `dict[str, str]` in
`services_deployed`: the success path carries `health_status`, the failure
path (and `get_deployment_status`) carries `status`. -/
structure PayloadEntry where
  historyId : Nat
  name : String
  version : String
  healthStatus : Option HStatus
  status : Option DStatus
deriving DecidableEq, Repr

/-- `DeploymentStatus` from `models.py`. -/
structure DeploymentStatusR where
  deploymentId : Int
  environment : String
  status : DStatus
  startedAt : Nat
  completedAt : Option Nat
  durationSeconds : Option Int
  servicesDeployed : List PayloadEntry
  errorMessage : Option String
deriving DecidableEq, Repr

/-- The container orchestrator oracle (`deploy_stack`): `none` means the call
returned, `some msg` means it raised an exception with message `msg`. -/
def Orch : Type := String → List (String × String) → Option String

/-- The Docker health-probe oracle (`get_service_health environment service`). -/
def Probe : Type := String → String → ServiceHealth

/-- Python truthiness of an `Optional[str]`: `None` and `""` are falsy. -/
def truthyOpt : Option String → Bool
  | none => false
  | some v => v ≠ ""

/-- Python `dict` lookup on an association list (keys unique in every dict
the code builds, so first match is the match). -/
def lookupA (l : List (String × String)) (k : String) : Option String :=
  (l.find? (fun p => p.1 = k)).map (fun p => p.2)

/-- Python `dict` insertion: an existing key keeps its position and gets the
new value, a fresh key is appended. -/
def assocUpsert (l : List (String × String)) (k v : String) : List (String × String) :=
  if l.any (fun p => p.1 = k) then
    l.map (fun p => if p.1 = k then (k, v) else p)
  else l ++ [(k, v)]

/-- Lexicographic comparison of character lists by code point — the order
Python's `sorted` uses on `str`. -/
def charListLe : List Char → List Char → Bool
  | [], _ => true
  | _ :: _, [] => false
  | a :: as, b :: bs =>
      if a.toNat < b.toNat then true
      else if b.toNat < a.toNat then false
      else charListLe as bs

/-- Python's ascending order on service names. -/
def strLe (a b : String) : Bool :=
  charListLe a.data b.data

/-- `sorted` on a list of names (Python's stable ascending sort). -/
def sortNames (l : List String) : List String :=
  List.insertionSort (fun a b => strLe a b = true) l

/-- `clock.now()`: returns the current tick and advances the injected clock. -/
def tickClock (s : EngineState) : Nat × EngineState :=
  (s.clock, { s with clock := s.clock + 1 })

/-- `Database.list_deployments(environment)`: rows of the `deployments`
table for one environment, in row order. -/
def listDeployments (s : EngineState) (env : String) : List DeploymentRecord :=
  s.deployments.filter (fun d => d.environment = env)

/-- Python `max(deployments, key=lambda d: d.deployed_at)`: first maximal
element. -/
def maxByDeployedAt : List DeploymentRecord → Option DeploymentRecord
  | [] => none
  | d :: ds => some (ds.foldl (fun best x => if x.deployedAt > best.deployedAt then x else best) d)

/-- `Database.get_environment_state`: derives the `EnvironmentState` from
the `deployments` table (latest version per service; commit and timestamp
from the most recently deployed service). -/
def getEnvironmentState (s : EngineState) (env : String) : Option EnvironmentState :=
  let ds := listDeployments s env
  match maxByDeployedAt ds with
  | none => none
  | some latest =>
      some { commitSha := latest.commitSha
             deployedAt := latest.deployedAt
             services := ds.foldl (fun acc d => assocUpsert acc d.serviceName d.version) [] }

/-- `DeploymentService._select_services`. -/
def selectServices (targetVersions : List (String × String)) (subset : Option (List String)) :
    Except String (List String) :=
  match subset with
  | none => .ok (sortNames (targetVersions.map (fun p => p.1)))
  | some sub =>
      let requested := sub.filter (fun n => (lookupA targetVersions n).isSome)
      if requested.isEmpty then .error "No valid services requested for deployment"
      else .ok (sortNames requested)

/-- `_ServiceHistoryContext` from `deployment_service.py`. -/
structure SvcCtx where
  serviceName : String
  version : String
  historyId : Nat
deriving DecidableEq, Repr

/-- An `in_progress` history row as `create_history_record` inserts it. -/
def initialEntry (env commitSha deployedBy : String) (startedAt : Nat)
    (svc version : String) (hid : Nat) : HistoryEntry :=
  { id := hid, environment := env, serviceName := svc, version := version
    commitSha := commitSha, status := .inProgress, deployedBy := deployedBy
    errorMessage := none, startedAt := startedAt, completedAt := none
    durationSeconds := none }

/-- `DeploymentService._start_history`: one `in_progress` row per selected
service, in selection order, collecting the `_ServiceHistoryContext`s. -/
def startHistory (env commitSha deployedBy : String) (startedAt : Nat)
    (tv : List (String × String)) :
    List String → EngineState → List SvcCtx × EngineState
  | [], s => ([], s)
  | svc :: rest, s =>
      let version := (lookupA tv svc).getD ""
      let hid := s.nextId
      let s1 : EngineState :=
        { s with
          history := s.history ++ [initialEntry env commitSha deployedBy startedAt svc version hid]
          nextId := hid + 1 }
      let (ctxs, s2) := startHistory env commitSha deployedBy startedAt tv rest s1
      (⟨svc, version, hid⟩ :: ctxs, s2)

/-- `Database.finalize_history_record`: updates the row with the given id. -/
def completeHistory (hid : Nat) (status : DStatus) (completedAt : Nat)
    (durationSeconds : Int) (errorMessage : Option String) (s : EngineState) : EngineState :=
  { s with
    history := s.history.map (fun e =>
      if e.id = hid then
        { e with status := status, errorMessage := errorMessage
                 durationSeconds := some durationSeconds, completedAt := some completedAt }
      else e) }

/-- `Database.upsert_deployment`: insert-or-update keyed by
`(environment, service_name)`. -/
def upsertDeployment (env svc version commitSha : String) (deployedAt : Nat)
    (deployedBy : String) (s : EngineState) : EngineState :=
  let r : DeploymentRecord :=
    { environment := env, serviceName := svc, version := version
      commitSha := commitSha, deployedAt := deployedAt, deployedBy := deployedBy }
  { s with
    deployments :=
      if s.deployments.any (fun d => d.environment = env ∧ d.serviceName = svc) then
        s.deployments.map (fun d =>
          if d.environment = env ∧ d.serviceName = svc then r else d)
      else s.deployments ++ [r] }

/-- `Database.update_service_health`: upsert keyed by
`(environment, service_name)`. -/
def upsertHealth (h : ServiceHealth) (rows : List ServiceHealth) : List ServiceHealth :=
  if rows.any (fun x => x.environment = h.environment ∧ x.serviceName = h.serviceName) then
    rows.map (fun x =>
      if x.environment = h.environment ∧ x.serviceName = h.serviceName then h else x)
  else rows ++ [h]

/-- The probe loop inside `HealthService.refresh_environment`. -/
def refreshLoop (probe : Probe) (env : String) :
    List String → EngineState → List ServiceHealth × EngineState
  | [], s => ([], s)
  | svc :: rest, s =>
      let h := probe env svc
      let s1 : EngineState :=
        { s with healthRows := upsertHealth h s.healthRows
                 probeLog := s.probeLog ++ [(env, svc)] }
      let (results, s2) := refreshLoop probe env rest s1
      (h :: results, s2)

/-- `HealthService.refresh_environment`: skips probing entirely when the
environment has no derived state; otherwise probes each target service and
persists the result. -/
def refreshEnvironment (probe : Probe) (env : String) (services : List String)
    (s : EngineState) : List ServiceHealth × EngineState :=
  match getEnvironmentState s env with
  | none => ([], s)
  | some envState =>
      let targets :=
        if services.isEmpty then sortNames (envState.services.map (fun p => p.1))
        else services
      refreshLoop probe env targets s

/-- The per-record loop of `DeploymentService._handle_success`: finalize the
history row to `success` and upsert the deployment record. -/
def handleSuccessLoop (env commitSha deployedBy : String) (completedAt : Nat)
    (dur : Int) (tv : List (String × String)) :
    List SvcCtx → EngineState → EngineState
  | [], s => s
  | r :: rest, s =>
      handleSuccessLoop env commitSha deployedBy completedAt dur tv rest
        (upsertDeployment env r.serviceName ((lookupA tv r.serviceName).getD "") commitSha
          completedAt deployedBy
          (completeHistory r.historyId .success completedAt dur none s))

/-- `DeploymentService._handle_success`: finalize every history row, upsert
every deployment record, then refresh health for exactly the deployed
services; returns `_last_health_probe`. -/
def handleSuccess (probe : Probe) (env commitSha deployedBy : String)
    (completedAt : Nat) (dur : Int) (recs : List SvcCtx) (tv : List (String × String))
    (s : EngineState) : List ServiceHealth × EngineState :=
  refreshEnvironment probe env (recs.map (fun r => r.serviceName))
    (handleSuccessLoop env commitSha deployedBy completedAt dur tv recs s)

/-- Python's `error_message or "Deployment failed"`. -/
def failMsg : Option String → String
  | some m => if m = "" then "Deployment failed" else m
  | none => "Deployment failed"

/-- `DeploymentService._handle_failure`: finalize every history row of the
group to `failed` with `error_message or "Deployment failed"`. -/
def handleFailure (completedAt : Nat) (dur : Int) (errorMessage : Option String) :
    List SvcCtx → EngineState → EngineState
  | [], s => s
  | r :: rest, s =>
      handleFailure completedAt dur errorMessage rest
        (completeHistory r.historyId .failed completedAt dur
          (some (failMsg errorMessage)) s)

/-- Python dict built by `_build_services_payload` from `_last_health_probe`
(later duplicates overwrite earlier ones, so the last match wins). -/
def lookupHealthLast (rows : List ServiceHealth) (name : String) : Option ServiceHealth :=
  rows.reverse.find? (fun x => x.serviceName = name)

/-- `DeploymentService._build_services_payload`. -/
def buildServicesPayload (status : DStatus) (recs : List SvcCtx)
    (tv : List (String × String)) (lastHealth : List ServiceHealth) : List PayloadEntry :=
  recs.map (fun r =>
    if status = .success then
      { historyId := r.historyId, name := r.serviceName
        version := (lookupA tv r.serviceName).getD ""
        healthStatus := some (((lookupHealthLast lastHealth r.serviceName).map
          (fun h => h.status)).getD .unknown)
        status := none }
    else
      { historyId := r.historyId, name := r.serviceName
        version := (lookupA tv r.serviceName).getD ""
        healthStatus := none, status := some .failed })

/-- `DeploymentService._execute_deployment`: validation, history creation,
the single atomic `deploy_stack` call, success/failure bookkeeping and the
composed `DeploymentStatus`. Validation errors (`ValueError`) leave the
state untouched, exactly as in the source where they are raised before any
write. -/
def executeDeployment (orch : Orch) (probe : Probe) (env : String)
    (tv : List (String × String)) (commitSha deployedBy : String)
    (subset : Option (List String)) (s : EngineState) :
    EngineState × Except RmError DeploymentStatusR :=
  match selectServices tv subset with
  | .error m => (s, .error (.invalidRequest m))
  | .ok services =>
    if services.isEmpty then
      (s, .error (.invalidRequest "No services supplied for deployment"))
    else
      let (startedAt, s1) := tickClock s
      let (recs, s2) := startHistory env commitSha deployedBy startedAt tv services s1
      let orchResult := orch env (services.map (fun svc => (svc, (lookupA tv svc).getD "")))
      let status : DStatus := if orchResult.isSome then .failed else .success
      let (completedAt, s3) := tickClock s2
      let dur : Int := (completedAt : Int) - (startedAt : Int)
      let (lastHealth, s4) :=
        match orchResult with
        | some _ => ([], handleFailure completedAt dur orchResult recs s3)
        | none => handleSuccess probe env commitSha deployedBy completedAt dur recs tv s3
      (s4, .ok {
        deploymentId := match recs with | [] => -1 | r :: _ => (r.historyId : Int)
        environment := env
        status := status
        startedAt := startedAt
        completedAt := some completedAt
        durationSeconds := some dur
        servicesDeployed := buildServicesPayload status recs tv lastHealth
        errorMessage := orchResult })

/-- The body of `DeploymentService._deploy`, as executed inside
`async with self._lock`: the asyncio lock serializes callers, so each call
runs as one atomic critical section here. The `_active_environment` guard
is transcribed from the source, but the marker is set and cleared strictly
inside the critical section (the `finally` runs before the lock is
released), so every call that acquires the lock finds the marker `None`
and the guard's `RuntimeError` is unreachable — see `deploy_clears_marker`.
A caller that arrives while a deployment is in flight is suspended by the
lock, not rejected; it runs afterwards on the state the in-flight
deployment leaves behind (`deployConcurrent`). -/
def deploy (orch : Orch) (probe : Probe) (env : String)
    (tv : List (String × String)) (commitSha deployedBy : String)
    (subset : Option (List String)) (s : EngineState) :
    EngineState × Except RmError DeploymentStatusR :=
  if truthyOpt s.activeEnvironment then
    (s, .error (.inProgress (s.activeEnvironment.getD "")))
  else
    let s1 : EngineState := { s with activeEnvironment := some env }
    let (s2, r) := executeDeployment orch probe env tv commitSha deployedBy subset s1
    ({ s2 with activeEnvironment := none }, r)

/-- `DeploymentService.deploy_preprod`. -/
def deployPreprod (orch : Orch) (probe : Probe) (commitSha : String)
    (services : List (String × String)) (deployedBy : String) (s : EngineState) :
    EngineState × Except RmError DeploymentStatusR :=
  deploy orch probe "preprod" services commitSha deployedBy none s

/-- `DeploymentService.deploy_prod`. -/
def deployProd (orch : Orch) (probe : Probe) (services : List (String × String))
    (commitSha : String) (deployedBy : String) (subset : Option (List String))
    (s : EngineState) : EngineState × Except RmError DeploymentStatusR :=
  deploy orch probe "prod" services commitSha deployedBy subset s

/-- Two deploy calls contending for the engine: the second is issued while
the first is in flight. `async with self._lock` suspends the second caller
until the first critical section completes — `_active_environment` being
cleared in the `finally` before the lock is released — and the second then
acquires the lock and runs on the state the first left behind; there is no
rejection path. Returns both outcomes in execution order. -/
def deployConcurrent (orch1 orch2 : Orch) (probe : Probe)
    (env1 : String) (tv1 : List (String × String)) (sha1 dby1 : String)
    (subset1 : Option (List String))
    (env2 : String) (tv2 : List (String × String)) (sha2 dby2 : String)
    (subset2 : Option (List String)) (s : EngineState) :
    (EngineState × Except RmError DeploymentStatusR) ×
      (EngineState × Except RmError DeploymentStatusR) :=
  let first := deploy orch1 probe env1 tv1 sha1 dby1 subset1 s
  let second := deploy orch2 probe env2 tv2 sha2 dby2 subset2 first.1
  (first, second)

/-- `Database.fetch_history_record`: lookup by primary key. -/
def fetchHistory (s : EngineState) (hid : Nat) : Option HistoryEntry :=
  s.history.find? (fun e => e.id = hid)

/-- `Database.list_history_for_started_at`: all rows sharing
`(environment, started_at)`, ordered by service name. -/
def listHistoryForStartedAt (s : EngineState) (env : String) (startedAt : Nat) :
    List HistoryEntry :=
  List.insertionSort (fun a b => strLe a.serviceName b.serviceName = true)
    (s.history.filter (fun e => e.environment = env ∧ e.startedAt = startedAt))

/-- The accumulator step of the aggregation loop in
`DeploymentService.get_deployment_status`. -/
def aggStep (acc : DStatus × Option String × Option Nat) (e : HistoryEntry) :
    DStatus × Option String × Option Nat :=
  let st1 :=
    if e.status = .failed ∨ e.status = .rolledBack then DStatus.failed else acc.1
  let err1 :=
    if e.status = .failed ∨ e.status = .rolledBack then e.errorMessage else acc.2.1
  let st2 := if e.status = .inProgress ∧ st1 ≠ DStatus.failed then DStatus.inProgress else st1
  let comp1 :=
    match e.completedAt, acc.2.2 with
    | some c, none => some c
    | some c, some cur => if c > cur then some c else some cur
    | none, acc1 => acc1
  (st2, err1, comp1)

/-- `DeploymentService.get_deployment_status`. -/
def getDeploymentStatus (s : EngineState) (deploymentId : Nat) : Option DeploymentStatusR :=
  match fetchHistory s deploymentId with
  | none => none
  | some record =>
    let group := listHistoryForStartedAt s record.environment record.startedAt
    let agg := group.foldl aggStep (DStatus.success, none, record.completedAt)
    some {
      deploymentId := (deploymentId : Int)
      environment := record.environment
      status := agg.1
      startedAt := record.startedAt
      completedAt := agg.2.2
      durationSeconds := agg.2.2.map (fun c => (c : Int) - (record.startedAt : Int))
      servicesDeployed := group.map (fun e =>
        { historyId := e.id, name := e.serviceName, version := e.version
          healthStatus := none, status := some e.status })
      errorMessage := agg.2.1 }

/-- `state.services if state else {}` from `_compute_diff`. -/
def servicesOf : Option EnvironmentState → List (String × String)
  | some p => p.services
  | none => []

/-- `EnvironmentService._compute_diff` (same logic as
`Database.compute_diff`): per-service divergence over the union of service
names, with Python truthiness on the optional version strings. -/
def computeDiff (prod preprod : Option EnvironmentState) : List ServiceDiff :=
  if prod = none ∧ preprod = none then []
  else
    let prodServices := servicesOf prod
    let preprodServices := servicesOf preprod
    let allServices :=
      sortNames ((prodServices.map (fun p => p.1) ++ preprodServices.map (fun p => p.1)).dedup)
    allServices.map (fun svc =>
      let pv := lookupA prodServices svc
      let ppv := lookupA preprodServices svc
      let ct : ChangeType :=
        if truthyOpt pv ∧ truthyOpt ppv then
          (if pv = ppv then .noChange else .versionBump)
        else if truthyOpt ppv ∧ ¬ truthyOpt pv then .newService
        else .removedService
      { service := svc, prodVersion := pv, preprodVersion := ppv, changeType := ct })

/-- The manifest payload returned by the fetcher (`EnvFile`). -/
structure EnvFile where
  commitSha : String
  services : List (String × String)
deriving DecidableEq, Repr

/-- `EnvironmentPoller.check_for_changes` for one fetched manifest: returns
the new last-seen commit, the engine state afterwards, and how many
`deploy_preprod` calls the iteration made (0 or 1). An exception raised by
the deploy call propagates (it is swallowed by `_run`), so the last-seen
commit is only updated when the call returns. -/
def checkForChanges (orch : Orch) (probe : Probe) (envFile : EnvFile)
    (latestCommit : Option String) (s : EngineState) :
    Option String × EngineState × Nat :=
  if envFile.services.isEmpty then (latestCommit, s, 0)
  else if some envFile.commitSha = latestCommit then (latestCommit, s, 0)
  else
    let (s1, r) := deployPreprod orch probe envFile.commitSha envFile.services "system" s
    match r with
    | .ok _ => (some envFile.commitSha, s1, 1)
    | .error _ => (latestCommit, s1, 1)

/-- `rollback_prod` from `routers/api.py`: validates confirmation and id,
resolves the history group of `historyId`, rejects non-production targets
with 404, rebuilds the service→version map from the group and replays it as
a production deployment with the map's keys as the subset. -/
def rollbackProd (orch : Orch) (probe : Probe) (confirm : Bool)
    (historyId : Option Nat) (s : EngineState) :
    EngineState × Except RmError DeploymentStatusR :=
  if ¬ confirm then (s, .error (.badRequest "Rollback requires confirmation"))
  else
    match historyId with
    | none => (s, .error (.badRequest "deployment_history_id is required"))
    | some hid =>
      match fetchHistory s hid with
      | none => (s, .error (.notFound "Production deployment record not found"))
      | some record =>
        if record.environment ≠ "prod" then
          (s, .error (.notFound "Production deployment record not found"))
        else
          let related := listHistoryForStartedAt s record.environment record.startedAt
          let services := related.foldl (fun acc e => assocUpsert acc e.serviceName e.version) []
          deployProd orch probe services record.commitSha "manual"
            (some (services.map (fun p => p.1))) s

/-- Spec-side aggregate: does the group contain a `failed` or `rolled_back`
entry? -/
def groupHasFailure (g : List HistoryEntry) : Bool :=
  g.any (fun e => e.status = DStatus.failed ∨ e.status = DStatus.rolledBack)

/-- Spec-side aggregate: does the group contain an `in_progress` entry? -/
def groupHasInProgress (g : List HistoryEntry) : Bool :=
  g.any (fun e => e.status = DStatus.inProgress)

/-- The aggregate status policy as the spec words it: any failed/rolled_back
entry makes the group `failed`, else any in_progress makes it `in_progress`,
else `success`. -/
def aggStatusSpec (g : List HistoryEntry) : DStatus :=
  if groupHasFailure g then .failed
  else if groupHasInProgress g then .inProgress
  else .success

/-- Maximum of two optional timestamps (`none` is the identity). -/
def optMax : Option Nat → Option Nat → Option Nat
  | none, b => b
  | some a, none => some a
  | some a, some b => some (Nat.max a b)

/-- The maximum `completedAt` across a group, ignoring entries whose
`completedAt` is nil; `none` when every entry is unfinished. -/
def maxCompletedSpec (g : List HistoryEntry) : Option Nat :=
  g.foldl (fun acc e => optMax acc e.completedAt) none

/-- The diff classification as the spec words it, as a function of the two
optional versions of one service. -/
def changeTypeSpec : Option String → Option String → ChangeType
  | some pv, some ppv => if pv = ppv then .noChange else .versionBump
  | none, some _ => .newService
  | some _, none => .removedService
  | none, none => .removedService

/-- The update `finalize_history_record` applies on the failure path. -/
def failUpdate (completedAt : Nat) (dur : Int) (msg : Option String)
    (e : HistoryEntry) : HistoryEntry :=
  { e with status := .failed, errorMessage := msg
           durationSeconds := some dur, completedAt := some completedAt }

/-- The update `finalize_history_record` applies on the success path. -/
def successUpdate (completedAt : Nat) (dur : Int) (e : HistoryEntry) : HistoryEntry :=
  { e with status := .success, errorMessage := none
           durationSeconds := some dur, completedAt := some completedAt }

/-- The `_ServiceHistoryContext` list `_start_history` produces, with ids
counted up from the history table's next id. -/
def mkCtxs (tv : List (String × String)) : List String → Nat → List SvcCtx
  | [], _ => []
  | svc :: rest, n => ⟨svc, (lookupA tv svc).getD "", n⟩ :: mkCtxs tv rest (n + 1)

/-- The `in_progress` rows `_start_history` inserts, with ids counted up
from the history table's next id. -/
def mkEntries (env commitSha deployedBy : String) (startedAt : Nat)
    (tv : List (String × String)) : List String → Nat → List HistoryEntry
  | [], _ => []
  | svc :: rest, n =>
      initialEntry env commitSha deployedBy startedAt svc ((lookupA tv svc).getD "") n
        :: mkEntries env commitSha deployedBy startedAt tv rest (n + 1)

/-- Database invariant: every existing history row's id is below the
autoincrement counter. -/
def idsBounded (s : EngineState) : Prop :=
  ∀ e ∈ s.history, e.id < s.nextId

/-- The service→version map the rollback endpoint reconstructs from a
history group, exactly as the spec describes it: the group's entries,
keyed by service name (a Python dict comprehension). -/
def reconstructServices (group : List HistoryEntry) : List (String × String) :=
  group.foldl (fun acc e => assocUpsert acc e.serviceName e.version) []

/-- An orchestrator stub whose `deploy_stack` always returns. -/
def orchOkE : Orch := fun _ _ => none

/-- An orchestrator stub whose `deploy_stack` always raises `"boom"`. -/
def orchFailE : Orch := fun _ _ => some "boom"

/-- A health-probe stub reporting every service healthy. -/
def probeStub : Probe := fun env svc =>
  { environment := env, serviceName := svc, status := .healthy
    lastChecked := 0, errorMessage := none }

/-- An idle engine over an empty database. -/
def emptyState : EngineState :=
  { history := [], nextId := 1, deployments := [], healthRows := []
    probeLog := [], activeEnvironment := none, clock := 10 }

/-- History row: service `b` of the finished production group. -/
def gsB : HistoryEntry :=
  { id := 1, environment := "prod", serviceName := "b", version := "2"
    commitSha := "sha1", status := .success, deployedBy := "manual"
    errorMessage := none, startedAt := 5, completedAt := some 6
    durationSeconds := some 1 }

/-- History row: service `a` of the finished production group. -/
def gsA : HistoryEntry :=
  { id := 2, environment := "prod", serviceName := "a", version := "1"
    commitSha := "sha1", status := .failed, deployedBy := "manual"
    errorMessage := some "boom", startedAt := 5, completedAt := some 8
    durationSeconds := some 3 }

/-- History row: an unrelated preprod deployment in flight. -/
def gsPre : HistoryEntry :=
  { id := 3, environment := "preprod", serviceName := "a", version := "9"
    commitSha := "sha2", status := .inProgress, deployedBy := "system"
    errorMessage := none, startedAt := 7, completedAt := none
    durationSeconds := none }

/-- A state whose history holds one finished production group
(`a` at `1`, `b` at `2`, both started at tick 5) and one preprod row. -/
def groupState : EngineState :=
  { history := [gsB, gsA, gsPre]
    nextId := 4, deployments := [], healthRows := []
    probeLog := [], activeEnvironment := none, clock := 10 }

theorem charListLe_total : ∀ as bs, charListLe as bs = true ∨ charListLe bs as = true
  | [], _ => Or.inl rfl
  | _ :: _, [] => Or.inr rfl
  | a :: as, b :: bs => by
      by_cases h1 : a.toNat < b.toNat
      · left; simp [charListLe, h1]
      · by_cases h2 : b.toNat < a.toNat
        · right; simp [charListLe, h2]
        · rcases charListLe_total as bs with h | h
          · left; simp [charListLe, h1, h2, h]
          · right; simp [charListLe, h1, h2, h]

theorem charListLe_trans : ∀ as bs cs, charListLe as bs = true → charListLe bs cs = true →
    charListLe as cs = true
  | [], _, _, _, _ => rfl
  | _ :: _, [], _, h, _ => by simp [charListLe] at h
  | _ :: _, _ :: _, [], _, h2 => by simp [charListLe] at h2
  | a :: as, b :: bs, c :: cs, h1, h2 => by
      simp only [charListLe] at h1 h2 ⊢
      by_cases hab : a.toNat < b.toNat
      · by_cases hbc : b.toNat < c.toNat
        · simp [show a.toNat < c.toNat from Nat.lt_trans hab hbc]
        · by_cases hcb : c.toNat < b.toNat
          · simp [hbc, hcb] at h2
          · have hbc' : b.toNat = c.toNat := Nat.le_antisymm (Nat.le_of_not_lt hcb) (Nat.le_of_not_lt hbc)
            simp [show a.toNat < c.toNat from hbc' ▸ hab]
      · by_cases hba : b.toNat < a.toNat
        · simp [hab, hba] at h1
        · have hab' : a.toNat = b.toNat := Nat.le_antisymm (Nat.le_of_not_lt hba) (Nat.le_of_not_lt hab)
          simp only [hab, hba, if_false, if_true] at h1
          by_cases hbc : b.toNat < c.toNat
          · simp [show a.toNat < c.toNat from hab' ▸ hbc]
          · by_cases hcb : c.toNat < b.toNat
            · simp [hbc, hcb] at h2
            · have hbc' : b.toNat = c.toNat := Nat.le_antisymm (Nat.le_of_not_lt hcb) (Nat.le_of_not_lt hbc)
              have hac : ¬ a.toNat < c.toNat := by omega
              have hca : ¬ c.toNat < a.toNat := by omega
              simp only [hbc, hcb, if_false] at h2
              simp [hac, hca, charListLe_trans as bs cs h1 h2]

theorem strLe_total (a b : String) : strLe a b = true ∨ strLe b a = true :=
  charListLe_total a.data b.data

theorem strLe_trans {a b c : String} (h1 : strLe a b = true) (h2 : strLe b c = true) :
    strLe a c = true :=
  charListLe_trans a.data b.data c.data h1 h2

instance : IsTotal String (fun a b => strLe a b = true) := ⟨strLe_total⟩

instance : IsTrans String (fun a b => strLe a b = true) := ⟨fun _ _ _ => strLe_trans⟩

theorem sortNames_sorted (l : List String) :
    (sortNames l).Sorted (fun a b => strLe a b = true) :=
  List.sorted_insertionSort _ l

theorem sortNames_perm (l : List String) : (sortNames l).Perm l :=
  List.perm_insertionSort _ l

theorem mem_sortNames {a : String} {l : List String} : a ∈ sortNames l ↔ a ∈ l :=
  (sortNames_perm l).mem_iff

theorem sortNames_nodup {l : List String} (h : l.Nodup) : (sortNames l).Nodup :=
  (sortNames_perm l).nodup_iff.mpr h

theorem startHistory_eq (env sha dby : String) (t : Nat) (tv : List (String × String)) :
    ∀ (services : List String) (s : EngineState),
    startHistory env sha dby t tv services s =
      (mkCtxs tv services s.nextId,
       { s with
          history := s.history ++ mkEntries env sha dby t tv services s.nextId
          nextId := s.nextId + services.length })
  | [], s => by simp [startHistory, mkCtxs, mkEntries]
  | svc :: rest, s => by
      simp only [startHistory, startHistory_eq env sha dby t tv rest, mkCtxs, mkEntries,
        List.length_cons, List.append_assoc, List.singleton_append]
      have h : s.nextId + 1 + rest.length = s.nextId + (rest.length + 1) := by omega
      rw [h]

theorem mkCtxs_map_name (tv : List (String × String)) :
    ∀ (l : List String) (n : Nat),
      (mkCtxs tv l n).map (fun r => r.serviceName) = l
  | [], _ => rfl
  | svc :: rest, n => by simp [mkCtxs, mkCtxs_map_name tv rest (n + 1)]

theorem mkCtxs_map_id (tv : List (String × String)) :
    ∀ (l : List String) (n : Nat),
      (mkCtxs tv l n).map (fun r => r.historyId) = List.range' n l.length
  | [], _ => by simp [mkCtxs]
  | svc :: rest, n => by
      simp [mkCtxs, mkCtxs_map_id tv rest (n + 1), List.range'_succ]

theorem mkEntries_map_name (env sha dby : String) (t : Nat) (tv : List (String × String)) :
    ∀ (l : List String) (n : Nat),
      (mkEntries env sha dby t tv l n).map (fun e => e.serviceName) = l
  | [], _ => rfl
  | svc :: rest, n => by
      simp [mkEntries, initialEntry, mkEntries_map_name env sha dby t tv rest (n + 1)]

theorem mkEntries_map_id (env sha dby : String) (t : Nat) (tv : List (String × String)) :
    ∀ (l : List String) (n : Nat),
      (mkEntries env sha dby t tv l n).map (fun e => e.id) = List.range' n l.length
  | [], _ => by simp [mkEntries]
  | svc :: rest, n => by
      simp [mkEntries, initialEntry, mkEntries_map_id env sha dby t tv rest (n + 1),
        List.range'_succ]

theorem mkEntries_mem (env sha dby : String) (t : Nat) (tv : List (String × String)) :
    ∀ (l : List String) (n : Nat), ∀ e ∈ mkEntries env sha dby t tv l n,
      e.environment = env ∧ e.startedAt = t ∧ e.commitSha = sha ∧ e.deployedBy = dby ∧
      e.status = DStatus.inProgress ∧ n ≤ e.id
  | [], _, e, he => by simp [mkEntries] at he
  | svc :: rest, n, e, he => by
      rcases (List.mem_cons).mp he with h | h
      · subst h; simp [initialEntry]
      · have := mkEntries_mem env sha dby t tv rest (n + 1) e h
        exact ⟨this.1, this.2.1, this.2.2.1, this.2.2.2.1, this.2.2.2.2.1, by omega⟩

theorem failUpdate_idem (c : Nat) (d : Int) (m : Option String) (e : HistoryEntry) :
    failUpdate c d m (failUpdate c d m e) = failUpdate c d m e := rfl

theorem handleFailure_eq (c : Nat) (d : Int) (em : Option String) :
    ∀ (ctxs : List SvcCtx) (s : EngineState),
    handleFailure c d em ctxs s =
      { s with
        history := s.history.map (fun e =>
          if e.id ∈ ctxs.map (fun r => r.historyId) then
            failUpdate c d (some (failMsg em)) e
          else e) }
  | [], s => by simp [handleFailure]
  | r :: rest, s => by
      rw [handleFailure, handleFailure_eq c d em rest]
      simp only [completeHistory, List.map_map, List.map_cons]
      congr 1
      apply List.map_congr_left
      intro e _
      by_cases hid : e.id = r.historyId
      · have h1 : (failUpdate c d (some (failMsg em)) e).id = e.id := rfl
        by_cases hmem : e.id ∈ rest.map (fun r => r.historyId) <;>
          simp [Function.comp, hid, h1, hmem, failUpdate, List.mem_cons]
      · by_cases hmem : e.id ∈ rest.map (fun r => r.historyId) <;>
          simp [Function.comp, hid, hmem, failUpdate, List.mem_cons]

theorem successUpdate_idem (c : Nat) (d : Int) (e : HistoryEntry) :
    successUpdate c d (successUpdate c d e) = successUpdate c d e := rfl

theorem upsertDeployment_history (env svc version sha : String) (t : Nat) (dby : String)
    (s : EngineState) :
    (upsertDeployment env svc version sha t dby s).history = s.history := rfl

theorem handleSuccessLoop_history (env sha dby : String) (c : Nat) (d : Int)
    (tv : List (String × String)) :
    ∀ (ctxs : List SvcCtx) (s : EngineState),
    (handleSuccessLoop env sha dby c d tv ctxs s).history =
      s.history.map (fun e =>
        if e.id ∈ ctxs.map (fun r => r.historyId) then successUpdate c d e else e)
  | [], s => by simp [handleSuccessLoop]
  | r :: rest, s => by
      rw [handleSuccessLoop, handleSuccessLoop_history env sha dby c d tv rest]
      simp only [upsertDeployment_history, completeHistory, List.map_map, List.map_cons]
      apply List.map_congr_left
      intro e _
      by_cases hid : e.id = r.historyId
      · have h1 : (successUpdate c d e).id = e.id := rfl
        by_cases hmem : e.id ∈ rest.map (fun r => r.historyId) <;>
          simp [Function.comp, hid, h1, hmem, successUpdate, List.mem_cons]
      · by_cases hmem : e.id ∈ rest.map (fun r => r.historyId) <;>
          simp [Function.comp, hid, hmem, successUpdate, List.mem_cons]

theorem handleSuccessLoop_fields (env sha dby : String) (c : Nat) (d : Int)
    (tv : List (String × String)) :
    ∀ (ctxs : List SvcCtx) (s : EngineState),
    (handleSuccessLoop env sha dby c d tv ctxs s).nextId = s.nextId ∧
    (handleSuccessLoop env sha dby c d tv ctxs s).clock = s.clock ∧
    (handleSuccessLoop env sha dby c d tv ctxs s).activeEnvironment = s.activeEnvironment ∧
    (handleSuccessLoop env sha dby c d tv ctxs s).probeLog = s.probeLog ∧
    (handleSuccessLoop env sha dby c d tv ctxs s).healthRows = s.healthRows
  | [], s => by simp [handleSuccessLoop]
  | r :: rest, s => by
      rw [handleSuccessLoop]
      exact handleSuccessLoop_fields env sha dby c d tv rest _

theorem refreshLoop_fields (probe : Probe) (env : String) :
    ∀ (l : List String) (s : EngineState),
    ((refreshLoop probe env l s).2).history = s.history ∧
    ((refreshLoop probe env l s).2).deployments = s.deployments ∧
    ((refreshLoop probe env l s).2).nextId = s.nextId ∧
    ((refreshLoop probe env l s).2).clock = s.clock ∧
    ((refreshLoop probe env l s).2).activeEnvironment = s.activeEnvironment
  | [], s => by simp [refreshLoop]
  | svc :: rest, s => by
      rw [refreshLoop]
      exact refreshLoop_fields probe env rest _

theorem refreshEnvironment_fields (probe : Probe) (env : String) (l : List String)
    (s : EngineState) :
    ((refreshEnvironment probe env l s).2).history = s.history ∧
    ((refreshEnvironment probe env l s).2).deployments = s.deployments ∧
    ((refreshEnvironment probe env l s).2).nextId = s.nextId ∧
    ((refreshEnvironment probe env l s).2).clock = s.clock ∧
    ((refreshEnvironment probe env l s).2).activeEnvironment = s.activeEnvironment := by
  rw [refreshEnvironment]
  rcases hs : getEnvironmentState s env with _ | st
  · exact ⟨rfl, rfl, rfl, rfl, rfl⟩
  · exact refreshLoop_fields probe env _ s

theorem getEnvironmentState_congr (s1 s2 : EngineState)
    (h : s1.deployments = s2.deployments) (env : String) :
    getEnvironmentState s1 env = getEnvironmentState s2 env := by
  simp [getEnvironmentState, listDeployments, h]

theorem executeDeployment_failed (orch : Orch) (probe : Probe) (env : String)
    (tv : List (String × String)) (sha dby : String) (subset : Option (List String))
    (s : EngineState) (services : List String) (err : String)
    (hsel : selectServices tv subset = Except.ok services)
    (hne : services ≠ [])
    (horch : orch env (services.map (fun svc => (svc, (lookupA tv svc).getD ""))) = some err) :
    executeDeployment orch probe env tv sha dby subset s =
      (handleFailure (s.clock + 1) ((((s.clock + 1 : Nat)) : Int) - ((s.clock : Nat) : Int))
         (some err) (mkCtxs tv services s.nextId)
         { s with
            history := s.history ++ mkEntries env sha dby s.clock tv services s.nextId
            nextId := s.nextId + services.length
            clock := s.clock + 2 },
       .ok { deploymentId := (s.nextId : Int)
             environment := env
             status := .failed
             startedAt := s.clock
             completedAt := some (s.clock + 1)
             durationSeconds := some ((((s.clock + 1 : Nat)) : Int) - ((s.clock : Nat) : Int))
             servicesDeployed :=
               buildServicesPayload .failed (mkCtxs tv services s.nextId) tv []
             errorMessage := some err }) := by
  obtain ⟨svc0, rest, rfl⟩ : ∃ a l, services = a :: l := by
    cases services with
    | nil => exact absurd rfl hne
    | cons a l => exact ⟨a, l, rfl⟩
  simp only [executeDeployment, hsel, List.isEmpty_cons, tickClock,
    startHistory_eq, horch, Option.isSome_some, mkCtxs]
  rfl

theorem executeDeployment_success (orch : Orch) (probe : Probe) (env : String)
    (tv : List (String × String)) (sha dby : String) (subset : Option (List String))
    (s : EngineState) (services : List String)
    (hsel : selectServices tv subset = Except.ok services)
    (hne : services ≠ [])
    (horch : orch env (services.map (fun svc => (svc, (lookupA tv svc).getD ""))) = none) :
    executeDeployment orch probe env tv sha dby subset s =
      ((handleSuccess probe env sha dby (s.clock + 1)
          ((((s.clock + 1 : Nat)) : Int) - ((s.clock : Nat) : Int))
          (mkCtxs tv services s.nextId) tv
          { s with
             history := s.history ++ mkEntries env sha dby s.clock tv services s.nextId
             nextId := s.nextId + services.length
             clock := s.clock + 2 }).2,
       .ok { deploymentId := (s.nextId : Int)
             environment := env
             status := .success
             startedAt := s.clock
             completedAt := some (s.clock + 1)
             durationSeconds := some ((((s.clock + 1 : Nat)) : Int) - ((s.clock : Nat) : Int))
             servicesDeployed :=
               buildServicesPayload .success (mkCtxs tv services s.nextId) tv
                 (handleSuccess probe env sha dby (s.clock + 1)
                   ((((s.clock + 1 : Nat)) : Int) - ((s.clock : Nat) : Int))
                   (mkCtxs tv services s.nextId) tv
                   { s with
                      history := s.history ++ mkEntries env sha dby s.clock tv services s.nextId
                      nextId := s.nextId + services.length
                      clock := s.clock + 2 }).1
             errorMessage := none }) := by
  obtain ⟨svc0, rest, rfl⟩ : ∃ a l, services = a :: l := by
    cases services with
    | nil => exact absurd rfl hne
    | cons a l => exact ⟨a, l, rfl⟩
  simp only [executeDeployment, hsel, List.isEmpty_cons, tickClock,
    startHistory_eq, horch, Option.isSome_none, mkCtxs]
  rfl

theorem old_history_untouched (s : EngineState) (hids : idsBounded s) (n len : Nat)
    (hn : s.nextId ≤ n) (upd : HistoryEntry → HistoryEntry) :
    s.history.map (fun e => if e.id ∈ List.range' n len then upd e else e) = s.history := by
  have h : ∀ e ∈ s.history, (if e.id ∈ List.range' n len then upd e else e) = e := by
    intro e he
    have hb := hids e he
    rw [if_neg]
    rw [List.mem_range'_1]
    omega
  rw [List.map_congr_left h]
  exact List.map_id' s.history

theorem new_entries_updated (env sha dby : String) (t : Nat)
    (tv : List (String × String)) (l : List String) (n : Nat)
    (upd : HistoryEntry → HistoryEntry) :
    (mkEntries env sha dby t tv l n).map
        (fun e => if e.id ∈ List.range' n l.length then upd e else e) =
      (mkEntries env sha dby t tv l n).map upd := by
  apply List.map_congr_left
  intro e he
  rw [if_pos]
  have : e.id ∈ (mkEntries env sha dby t tv l n).map (fun e => e.id) :=
    List.mem_map_of_mem _ he
  rwa [mkEntries_map_id] at this

theorem buildServicesPayload_map_name (st : DStatus) (recs : List SvcCtx)
    (tv : List (String × String)) (lh : List ServiceHealth) :
    (buildServicesPayload st recs tv lh).map (fun p => p.name) =
      recs.map (fun r => r.serviceName) := by
  rw [buildServicesPayload, List.map_map]
  apply List.map_congr_left
  intro r _
  by_cases h : st = DStatus.success <;> simp [h]

theorem buildServicesPayload_map_hid (st : DStatus) (recs : List SvcCtx)
    (tv : List (String × String)) (lh : List ServiceHealth) :
    (buildServicesPayload st recs tv lh).map (fun p => p.historyId) =
      recs.map (fun r => r.historyId) := by
  rw [buildServicesPayload, List.map_map]
  apply List.map_congr_left
  intro r _
  by_cases h : st = DStatus.success <;> simp [h]

theorem selectServices_sorted (tv : List (String × String)) (subset : Option (List String))
    (services : List String) (hsel : selectServices tv subset = Except.ok services) :
    services.Sorted (fun a b => strLe a b = true) := by
  cases subset with
  | none =>
      simp only [selectServices, Except.ok.injEq] at hsel
      rw [← hsel]
      exact sortNames_sorted _
  | some l =>
      simp only [selectServices] at hsel
      split at hsel
      · exact absurd hsel (by simp)
      · simp only [Except.ok.injEq] at hsel
        rw [← hsel]
        exact sortNames_sorted _

theorem selectServices_nodup (tv : List (String × String)) (subset : Option (List String))
    (services : List String) (hsel : selectServices tv subset = Except.ok services)
    (hnd : (tv.map (fun p => p.1)).Nodup)
    (hsub : ∀ l, subset = some l → l.Nodup) :
    services.Nodup := by
  cases subset with
  | none =>
      simp only [selectServices, Except.ok.injEq] at hsel
      rw [← hsel]
      exact sortNames_nodup hnd
  | some l =>
      simp only [selectServices] at hsel
      split at hsel
      · exact absurd hsel (by simp)
      · simp only [Except.ok.injEq] at hsel
        rw [← hsel]
        exact sortNames_nodup ((hsub l rfl).filter _)

theorem deploy_ok_char (orch : Orch) (probe : Probe) (env : String)
    (tv : List (String × String)) (sha dby : String) (subset : Option (List String))
    (s : EngineState) (services : List String)
    (hact : truthyOpt s.activeEnvironment = false)
    (hsel : selectServices tv subset = Except.ok services)
    (hne : services ≠ [])
    (hids : idsBounded s) :
    ∃ st s2 entries,
      deploy orch probe env tv sha dby subset s = (s2, Except.ok st) ∧
      s2.history = s.history ++ entries ∧
      entries.map (fun e => e.serviceName) = services ∧
      entries.map (fun e => e.id) = List.range' s.nextId services.length ∧
      (∀ e ∈ entries, e.environment = env ∧ e.startedAt = s.clock ∧
        e.commitSha = sha ∧ e.deployedBy = dby) ∧
      st.deploymentId = (s.nextId : Int) ∧
      st.startedAt = s.clock ∧
      st.environment = env ∧
      st.servicesDeployed.map (fun p => p.name) = services ∧
      st.servicesDeployed.map (fun p => p.historyId) = List.range' s.nextId services.length ∧
      s2.activeEnvironment = none ∧
      s2.nextId = s.nextId + services.length := by
  simp only [deploy, hact, Bool.false_eq_true, if_false]
  rcases horch : orch env (services.map (fun svc => (svc, (lookupA tv svc).getD ""))) with _ | err
  · rw [executeDeployment_success orch probe env tv sha dby subset _ services hsel hne horch]
    refine ⟨_, _, (mkEntries env sha dby s.clock tv services s.nextId).map
      (successUpdate (s.clock + 1)
        ((((s.clock + 1 : Nat)) : Int) - ((s.clock : Nat) : Int))), rfl, ?_, ?_, ?_, ?_,
      rfl, rfl, rfl, ?_, ?_, ?_, ?_⟩
    · show (handleSuccess probe env sha dby _ _ _ tv _).2.history = _
      rw [handleSuccess]
      rw [(refreshEnvironment_fields probe env _ _).1]
      rw [handleSuccessLoop_history]
      simp only [mkCtxs_map_id, List.map_append]
      rw [old_history_untouched s hids s.nextId services.length (Nat.le_refl _),
        new_entries_updated]
    · rw [List.map_map]
      exact mkEntries_map_name env sha dby s.clock tv services s.nextId
    · rw [List.map_map]
      exact mkEntries_map_id env sha dby s.clock tv services s.nextId
    · intro e he
      obtain ⟨e0, he0, rfl⟩ := List.mem_map.mp he
      have hm := mkEntries_mem env sha dby s.clock tv services s.nextId e0 he0
      exact ⟨hm.1, hm.2.1, hm.2.2.1, hm.2.2.2.1⟩
    · rw [buildServicesPayload_map_name, mkCtxs_map_name]
    · rw [buildServicesPayload_map_hid, mkCtxs_map_id]
    · rfl
    · show (handleSuccess probe env sha dby _ _ _ tv _).2.nextId = _
      rw [handleSuccess]
      rw [(refreshEnvironment_fields probe env _ _).2.2.1]
      rw [(handleSuccessLoop_fields env sha dby _ _ tv _ _).1]
  · rw [executeDeployment_failed orch probe env tv sha dby subset _ services err hsel hne horch]
    rw [handleFailure_eq]
    refine ⟨_, _, (mkEntries env sha dby s.clock tv services s.nextId).map
      (failUpdate (s.clock + 1) ((((s.clock + 1 : Nat)) : Int) - ((s.clock : Nat) : Int))
        (some (failMsg (some err)))), rfl, ?_, ?_, ?_, ?_, rfl, rfl, rfl, ?_, ?_, rfl, rfl⟩
    · show _ = _
      simp only [mkCtxs_map_id, List.map_append]
      rw [old_history_untouched s hids s.nextId services.length (Nat.le_refl _),
        new_entries_updated]
    · rw [List.map_map]
      exact mkEntries_map_name env sha dby s.clock tv services s.nextId
    · rw [List.map_map]
      exact mkEntries_map_id env sha dby s.clock tv services s.nextId
    · intro e he
      obtain ⟨e0, he0, rfl⟩ := List.mem_map.mp he
      have hm := mkEntries_mem env sha dby s.clock tv services s.nextId e0 he0
      exact ⟨hm.1, hm.2.1, hm.2.2.1, hm.2.2.2.1⟩
    · rw [buildServicesPayload_map_name, mkCtxs_map_name]
    · rw [buildServicesPayload_map_hid, mkCtxs_map_id]

/-- C1. If the orchestrator call of a deploy fails, every HistoryEntry of
the deployment group is finalized to `failed` carrying the captured error
message, the `deployments` table — and hence `getEnvironmentState` — is
unchanged, and the Health Prober is never invoked (the probe log is
untouched). The call still returns a `failed` DeploymentStatus. -/
theorem orchestrator_failure_writes_no_state
    (orch : Orch) (probe : Probe) (env : String) (tv : List (String × String))
    (sha dby : String) (subset : Option (List String)) (s : EngineState)
    (services : List String) (err : String)
    (hact : truthyOpt s.activeEnvironment = false)
    (hsel : selectServices tv subset = Except.ok services)
    (hne : services ≠ [])
    (hids : idsBounded s)
    (horch : orch env (services.map (fun svc => (svc, (lookupA tv svc).getD ""))) = some err)
    (herr : err ≠ "") :
    ∃ st entries,
      deploy orch probe env tv sha dby subset s =
        ({ s with
            history := s.history ++ entries
            nextId := s.nextId + services.length
            clock := s.clock + 2
            activeEnvironment := none }, Except.ok st) ∧
      entries.map (fun e => e.serviceName) = services ∧
      entries ≠ [] ∧
      (∀ e ∈ entries, e.status = DStatus.failed ∧ e.errorMessage = some err ∧
        e.environment = env ∧ e.startedAt = s.clock) ∧
      st.status = DStatus.failed ∧ st.errorMessage = some err ∧
      (∀ env2, getEnvironmentState
        { s with
            history := s.history ++ entries
            nextId := s.nextId + services.length
            clock := s.clock + 2
            activeEnvironment := none } env2 = getEnvironmentState s env2) := by
  have hmsg : failMsg (some err) = err := by simp [failMsg, herr]
  refine ⟨{ deploymentId := (s.nextId : Int)
            environment := env
            status := .failed
            startedAt := s.clock
            completedAt := some (s.clock + 1)
            durationSeconds := some ((((s.clock + 1 : Nat)) : Int) - ((s.clock : Nat) : Int))
            servicesDeployed :=
              buildServicesPayload .failed (mkCtxs tv services s.nextId) tv []
            errorMessage := some err },
    (mkEntries env sha dby s.clock tv services s.nextId).map
      (failUpdate (s.clock + 1) ((((s.clock + 1 : Nat)) : Int) - ((s.clock : Nat) : Int))
        (some err)), ?_, ?_, ?_, ?_, rfl, rfl, ?_⟩
  · simp only [deploy, hact, Bool.false_eq_true, if_false]
    rw [executeDeployment_failed orch probe env tv sha dby subset _ services err hsel hne horch]
    rw [handleFailure_eq]
    simp only [mkCtxs_map_id, hmsg]
    congr 1
    simp only [List.map_append]
    rw [old_history_untouched s hids s.nextId services.length (Nat.le_refl _),
      new_entries_updated]
  · rw [List.map_map]
    exact mkEntries_map_name env sha dby s.clock tv services s.nextId
  · cases services with
    | nil => exact absurd rfl hne
    | cons a l => simp [mkEntries]
  · intro e he
    obtain ⟨e0, he0, rfl⟩ := List.mem_map.mp he
    have hm := mkEntries_mem env sha dby s.clock tv services s.nextId e0 he0
    exact ⟨rfl, rfl, hm.1, hm.2.1⟩
  · intro env2
    exact getEnvironmentState_congr _ s rfl env2

/-- Witness for C1 at a concrete failing deploy. -/
theorem orchestrator_failure_writes_no_state_witness :
    ∃ st entries,
      deploy orchFailE probeStub "preprod" [("a", "1")] "c1" "system" none emptyState =
        ({ emptyState with
            history := emptyState.history ++ entries
            nextId := emptyState.nextId + (["a"] : List String).length
            clock := emptyState.clock + 2
            activeEnvironment := none }, Except.ok st) ∧
      entries.map (fun e => e.serviceName) = ["a"] ∧
      entries ≠ [] ∧
      (∀ e ∈ entries, e.status = DStatus.failed ∧ e.errorMessage = some "boom" ∧
        e.environment = "preprod" ∧ e.startedAt = emptyState.clock) ∧
      st.status = DStatus.failed ∧ st.errorMessage = some "boom" ∧
      (∀ env2, getEnvironmentState
        { emptyState with
            history := emptyState.history ++ entries
            nextId := emptyState.nextId + (["a"] : List String).length
            clock := emptyState.clock + 2
            activeEnvironment := none } env2 = getEnvironmentState emptyState env2) :=
  orchestrator_failure_writes_no_state orchFailE probeStub "preprod" [("a", "1")] "c1"
    "system" none emptyState ["a"] "boom" rfl rfl (by decide)
    (by intro e he; exact absurd he (List.not_mem_nil e)) rfl (by decide)

/-- C5. A deploy over a valid selection creates exactly one HistoryEntry per
selected service (the selection is duplicate-free and the created entries
match it one for one, in order), all sharing the one `startedAt` tick, and
the returned `deploymentId` is the id of the first created entry of the
group. -/
theorem one_history_entry_per_selected_service
    (orch : Orch) (probe : Probe) (env : String) (tv : List (String × String))
    (sha dby : String) (subset : Option (List String)) (s : EngineState)
    (services : List String)
    (hact : truthyOpt s.activeEnvironment = false)
    (hsel : selectServices tv subset = Except.ok services)
    (hne : services ≠ [])
    (hids : idsBounded s)
    (hnd : (tv.map (fun p => p.1)).Nodup)
    (hsub : ∀ l, subset = some l → l.Nodup) :
    ∃ st s2 entries e0 rest,
      deploy orch probe env tv sha dby subset s = (s2, Except.ok st) ∧
      s2.history = s.history ++ entries ∧
      entries.map (fun e => e.serviceName) = services ∧
      services.Nodup ∧
      (∀ e ∈ entries, e.startedAt = s.clock) ∧
      entries = e0 :: rest ∧
      st.deploymentId = (e0.id : Int) := by
  obtain ⟨st, s2, entries, hdep, hhist, hnames, hid, hmem, hdid, _, _, _, _, _⟩ :=
    deploy_ok_char orch probe env tv sha dby subset s services hact hsel hne hids
  obtain ⟨svc0, rest0, rfl⟩ : ∃ a l, services = a :: l := by
    cases services with
    | nil => exact absurd rfl hne
    | cons a l => exact ⟨a, l, rfl⟩
  rw [List.length_cons, List.range'_succ] at hid
  obtain ⟨e0, rest, rfl⟩ : ∃ a l, entries = a :: l := by
    cases entries with
    | nil => exact absurd hid (by simp)
    | cons a l => exact ⟨a, l, rfl⟩
  rw [List.map_cons, List.cons.injEq] at hid
  refine ⟨st, s2, e0 :: rest, e0, rest, hdep, hhist, hnames,
    selectServices_nodup tv subset _ hsel hnd hsub, fun e he => ((hmem e he).2.1),
    rfl, ?_⟩
  rw [hdid, hid.1]

/-- Witness for C5 on a concrete two-service deploy. -/
theorem one_history_entry_per_selected_service_witness :
    ∃ st s2 entries e0 rest,
      deploy orchOkE probeStub "prod" [("b", "2"), ("a", "1")] "c5" "manual" none emptyState =
        (s2, Except.ok st) ∧
      s2.history = emptyState.history ++ entries ∧
      entries.map (fun e => e.serviceName) = ["a", "b"] ∧
      (["a", "b"] : List String).Nodup ∧
      (∀ e ∈ entries, e.startedAt = emptyState.clock) ∧
      entries = e0 :: rest ∧
      st.deploymentId = (e0.id : Int) :=
  one_history_entry_per_selected_service orchOkE probeStub "prod" [("b", "2"), ("a", "1")]
    "c5" "manual" none emptyState ["a", "b"] rfl rfl (by decide)
    (by intro e he; exact absurd he (List.not_mem_nil e)) (by decide)
    (fun l h => nomatch h)

/-- C8. The selected service list of a deploy is in ascending service-name
order, HistoryEntries are created in exactly that order, and the returned
`servicesDeployed` lists the services in that same order. -/
theorem deployment_order_is_ascending
    (orch : Orch) (probe : Probe) (env : String) (tv : List (String × String))
    (sha dby : String) (subset : Option (List String)) (s : EngineState)
    (services : List String)
    (hact : truthyOpt s.activeEnvironment = false)
    (hsel : selectServices tv subset = Except.ok services)
    (hne : services ≠ [])
    (hids : idsBounded s) :
    services.Sorted (fun a b => strLe a b = true) ∧
    ∃ st s2 entries,
      deploy orch probe env tv sha dby subset s = (s2, Except.ok st) ∧
      s2.history = s.history ++ entries ∧
      entries.map (fun e => e.serviceName) = services ∧
      st.servicesDeployed.map (fun p => p.name) = services := by
  refine ⟨selectServices_sorted tv subset services hsel, ?_⟩
  obtain ⟨st, s2, entries, hdep, hhist, hnames, _, _, _, _, _, hpay, _, _, _⟩ :=
    deploy_ok_char orch probe env tv sha dby subset s services hact hsel hne hids
  exact ⟨st, s2, entries, hdep, hhist, hnames, hpay⟩

/-- Witness for C8 on a concrete three-service deploy with a subset. -/
theorem deployment_order_is_ascending_witness :
    (["a", "c"] : List String).Sorted (fun a b => strLe a b = true) ∧
    ∃ st s2 entries,
      deploy orchOkE probeStub "prod" [("c", "3"), ("a", "1"), ("b", "2")] "c8" "manual"
        (some ["c", "a"]) emptyState = (s2, Except.ok st) ∧
      s2.history = emptyState.history ++ entries ∧
      entries.map (fun e => e.serviceName) = ["a", "c"] ∧
      st.servicesDeployed.map (fun p => p.name) = ["a", "c"] :=
  deployment_order_is_ascending orchOkE probeStub "prod" [("c", "3"), ("a", "1"), ("b", "2")]
    "c8" "manual" (some ["c", "a"]) emptyState ["a", "c"] rfl rfl (by decide)
    (by intro e he; exact absurd he (List.not_mem_nil e))

theorem deploy_clears_marker (orch : Orch) (probe : Probe) (env : String)
    (tv : List (String × String)) (sha dby : String) (subset : Option (List String))
    (s : EngineState) (hact : truthyOpt s.activeEnvironment = false) :
    ((deploy orch probe env tv sha dby subset s).1).activeEnvironment = none := by
  rcases h : executeDeployment orch probe env tv sha dby subset
      { s with activeEnvironment := some env } with ⟨s2, r⟩
  simp [deploy, hact, h]

/-- C2. The claim demands that a deploy call issued while another
deployment is active fail immediately with `DeploymentInProgress`, naming
the active environment, and create zero new HistoryEntries. The code does
the opposite: `async with self._lock` queues the second caller, and —
because `_active_environment` is cleared in the `finally` before the lock
is released — once the lock is acquired the marker is `None`, the guard
never fires, and the queued call runs a full second deployment. Evaluated
at a concrete pair of contending calls: the first deploys one service (one
HistoryEntry), and the queued second call returns a DeploymentStatus — not
a `DeploymentInProgress` error — appending its own HistoryEntry (history
grows from one row to two). -/
theorem concurrent_deploy_queues_and_runs :
    ∃ st1 st2,
      (deployConcurrent orchOkE orchOkE probeStub "prod" [("a", "1")] "c2a" "manual" none
        "preprod" [("b", "2")] "c2b" "system" none emptyState).1.2 = Except.ok st1 ∧
      (deployConcurrent orchOkE orchOkE probeStub "prod" [("a", "1")] "c2a" "manual" none
        "preprod" [("b", "2")] "c2b" "system" none emptyState).2.2 = Except.ok st2 ∧
      ((deployConcurrent orchOkE orchOkE probeStub "prod" [("a", "1")] "c2a" "manual" none
        "preprod" [("b", "2")] "c2b" "system" none emptyState).1.1).history.length = 1 ∧
      ((deployConcurrent orchOkE orchOkE probeStub "prod" [("a", "1")] "c2a" "manual" none
        "preprod" [("b", "2")] "c2b" "system" none emptyState).2.1).history.length = 2 :=
  ⟨_, _, rfl, rfl, rfl, rfl⟩

/-- C9. A deploy whose selection is empty after subset filtering (empty
`targetVersions` with no subset, or a subset disjoint from
`targetVersions`) fails with `InvalidRequest` and the state is exactly the
state before the call: no HistoryEntry, no DeploymentRecord, no health
write. -/
theorem empty_selection_rejected_without_side_effects
    (orch : Orch) (probe : Probe) (env : String) (tv : List (String × String))
    (sha dby : String) (subset : Option (List String)) (s : EngineState)
    (hidle : s.activeEnvironment = none)
    (hempty : (tv = [] ∧ subset = none) ∨
      (∃ l, subset = some l ∧ l.filter (fun n => (lookupA tv n).isSome) = [])) :
    ∃ msg, deploy orch probe env tv sha dby subset s =
      (s, Except.error (RmError.invalidRequest msg)) := by
  have hs : { s with activeEnvironment := none } = s := by
    cases s
    simp only at hidle
    rw [hidle]
  rcases hempty with ⟨htv, hsub⟩ | ⟨l, hsub, hfil⟩
  · refine ⟨"No services supplied for deployment", ?_⟩
    subst htv hsub
    simp [deploy, truthyOpt, hidle, executeDeployment, selectServices, sortNames,
      List.insertionSort, hs]
  · refine ⟨"No valid services requested for deployment", ?_⟩
    subst hsub
    simp [deploy, truthyOpt, hidle, executeDeployment, selectServices, hfil, hs]

theorem aggStep_comp (st : DStatus) (err : Option String) (c : Option Nat)
    (e : HistoryEntry) : (aggStep (st, err, c) e).2.2 = optMax c e.completedAt := by
  rcases hca : e.completedAt with _ | c1 <;> rcases c with _ | c0
  case none.none => simp only [aggStep, hca, optMax]
  case none.some => simp only [aggStep, hca, optMax]
  case some.none => simp only [aggStep, hca, optMax]
  case some.some =>
    simp only [aggStep, hca, optMax]
    split_ifs with h
    · exact congrArg some (Nat.max_eq_right (Nat.le_of_lt h)).symm
    · exact congrArg some (Nat.max_eq_left (Nat.le_of_not_lt h)).symm

theorem aggStep_status (st0 : DStatus) (err0 : Option String) (c0 : Option Nat)
    (e : HistoryEntry) :
    (aggStep (st0, err0, c0) e).1 =
      if e.status = DStatus.failed ∨ e.status = DStatus.rolledBack then DStatus.failed
      else if e.status = DStatus.inProgress ∧ st0 ≠ DStatus.failed then DStatus.inProgress
      else st0 := by
  by_cases hP : e.status = DStatus.failed ∨ e.status = DStatus.rolledBack <;>
    simp [aggStep, hP]

theorem aggStep_err (st0 : DStatus) (err0 : Option String) (c0 : Option Nat)
    (e : HistoryEntry) :
    (aggStep (st0, err0, c0) e).2.1 =
      if e.status = DStatus.failed ∨ e.status = DStatus.rolledBack then e.errorMessage
      else err0 := rfl

theorem optMax_none_right (a : Option Nat) : optMax a none = a := by
  rcases a <;> rfl

theorem optMax_assoc (a b c : Option Nat) :
    optMax (optMax a b) c = optMax a (optMax b c) := by
  rcases a <;> rcases b <;> rcases c <;> simp [optMax, Nat.max_assoc]

theorem optMax_self_absorb (a b : Option Nat) : optMax a (optMax a b) = optMax a b := by
  rcases a with _ | a
  · rfl
  · rcases b with _ | b
    · exact congrArg some (Nat.max_self a)
    · show some (a.max (a.max b)) = some (a.max b)
      exact congrArg some (by show a ⊔ (a ⊔ b) = a ⊔ b; rw [← Nat.max_assoc, Nat.max_self])

theorem optMax_left_comm (a b c : Option Nat) :
    optMax a (optMax b c) = optMax b (optMax a c) := by
  rcases a with _ | a <;> rcases b with _ | b <;> rcases c with _ | c <;> try rfl
  · exact congrArg some (Nat.max_comm a b)
  · show some (a.max (b.max c)) = some (b.max (a.max c))
    exact congrArg some
      (by show a ⊔ (b ⊔ c) = b ⊔ (a ⊔ c); rw [← Nat.max_assoc, Nat.max_comm a b, Nat.max_assoc])

theorem maxCompletedSpec_shift :
    ∀ (g : List HistoryEntry) (a : Option Nat),
    g.foldl (fun acc e => optMax acc e.completedAt) a = optMax a (maxCompletedSpec g)
  | [], a => by rw [maxCompletedSpec]; simp [optMax_none_right]
  | e :: g, a => by
      have hcons : maxCompletedSpec (e :: g) = optMax e.completedAt (maxCompletedSpec g) := by
        rw [maxCompletedSpec, List.foldl_cons, maxCompletedSpec_shift g]
        rfl
      rw [List.foldl_cons, maxCompletedSpec_shift g, hcons, optMax_assoc]

theorem maxCompletedSpec_cons (e : HistoryEntry) (g : List HistoryEntry) :
    maxCompletedSpec (e :: g) = optMax e.completedAt (maxCompletedSpec g) := by
  rw [maxCompletedSpec, List.foldl_cons, maxCompletedSpec_shift g]
  rfl

theorem maxCompletedSpec_absorb :
    ∀ (g : List HistoryEntry) (e : HistoryEntry), e ∈ g →
    optMax e.completedAt (maxCompletedSpec g) = maxCompletedSpec g
  | [], e, he => absurd he (List.not_mem_nil e)
  | f :: g, e, he => by
      rcases List.mem_cons.mp he with h | h
      · subst h
        rw [maxCompletedSpec_cons, optMax_self_absorb]
      · rw [maxCompletedSpec_cons, optMax_left_comm, maxCompletedSpec_absorb g e h]

theorem aggFold_status :
    ∀ (g : List HistoryEntry) (st0 : DStatus) (err0 : Option String) (c0 : Option Nat),
    (g.foldl aggStep (st0, err0, c0)).1 =
      if groupHasFailure g then DStatus.failed
      else if st0 = DStatus.failed then DStatus.failed
      else if groupHasInProgress g then DStatus.inProgress
      else st0
  | [], st0, err0, c0 => by
      by_cases h : st0 = DStatus.failed <;>
        simp [groupHasFailure, groupHasInProgress, h]
  | e :: g, st0, err0, c0 => by
      rw [List.foldl_cons]
      have h2 : (List.foldl aggStep (aggStep (st0, err0, c0) e) g).1 =
          (if groupHasFailure g then DStatus.failed
           else if (aggStep (st0, err0, c0) e).1 = DStatus.failed then DStatus.failed
           else if groupHasInProgress g then DStatus.inProgress
           else (aggStep (st0, err0, c0) e).1) :=
        aggFold_status g (aggStep (st0, err0, c0) e).1
          (aggStep (st0, err0, c0) e).2.1 (aggStep (st0, err0, c0) e).2.2
      rw [h2, aggStep_status]
      simp only [groupHasFailure, groupHasInProgress, List.any_cons, Bool.or_eq_true,
        decide_eq_true_eq]
      by_cases hf : e.status = DStatus.failed ∨ e.status = DStatus.rolledBack <;>
        by_cases hgf : (g.any fun e =>
          decide (e.status = DStatus.failed ∨ e.status = DStatus.rolledBack)) = true <;>
        by_cases hs0 : st0 = DStatus.failed <;>
        by_cases hip : e.status = DStatus.inProgress <;>
        by_cases hgip : (g.any fun e => decide (e.status = DStatus.inProgress)) = true <;>
        simp [hf, hgf, hs0, hip, hgip]

theorem aggFold_comp :
    ∀ (g : List HistoryEntry) (st0 : DStatus) (err0 : Option String) (c0 : Option Nat),
    (g.foldl aggStep (st0, err0, c0)).2.2 = optMax c0 (maxCompletedSpec g)
  | [], st0, err0, c0 => by rw [maxCompletedSpec]; simp [optMax_none_right]
  | e :: g, st0, err0, c0 => by
      rw [List.foldl_cons, maxCompletedSpec_cons, ← optMax_assoc,
        ← aggStep_comp st0 err0 c0 e]
      exact aggFold_comp g _ _ _

theorem aggFold_comp_irrel :
    ∀ (g : List HistoryEntry) (st0 : DStatus) (err0 : Option String) (c0 c0' : Option Nat),
    (g.foldl aggStep (st0, err0, c0)).1 = (g.foldl aggStep (st0, err0, c0')).1 ∧
    (g.foldl aggStep (st0, err0, c0)).2.1 = (g.foldl aggStep (st0, err0, c0')).2.1
  | [], _, _, _, _ => ⟨rfl, rfl⟩
  | e :: g, st0, err0, c0, c0' => by
      rw [List.foldl_cons, List.foldl_cons]
      exact aggFold_comp_irrel g (aggStep (st0, err0, c0) e).1
        (aggStep (st0, err0, c0) e).2.1 (aggStep (st0, err0, c0) e).2.2
        (aggStep (st0, err0, c0') e).2.2

theorem record_mem_group (s : EngineState) (hid : Nat) (record : HistoryEntry)
    (hrec : fetchHistory s hid = some record) :
    record ∈ listHistoryForStartedAt s record.environment record.startedAt := by
  have hmem : record ∈ s.history := List.mem_of_find?_eq_some hrec
  have hfil : record ∈ s.history.filter
      (fun e => e.environment = record.environment ∧ e.startedAt = record.startedAt) := by
    rw [List.mem_filter]
    exact ⟨hmem, by simp⟩
  exact ((List.perm_insertionSort _ _).mem_iff).mpr hfil

/-- C6. `getStatus` of a known id aggregates over the id's
`(environment, startedAt)` group: the overall status is `failed` if any
entry is failed or rolled back, else `in_progress` if any entry is in
progress, else `success`; `completedAt` is the maximum `completedAt` over
the group ignoring nil entries; an unknown id yields `none`. -/
theorem status_aggregation_policy (s : EngineState) (hid : Nat) :
    (fetchHistory s hid = none → getDeploymentStatus s hid = none) ∧
    (∀ record, fetchHistory s hid = some record →
      ∃ st, getDeploymentStatus s hid = some st ∧
        st.status =
          aggStatusSpec (listHistoryForStartedAt s record.environment record.startedAt) ∧
        st.completedAt =
          maxCompletedSpec (listHistoryForStartedAt s record.environment record.startedAt)) := by
  constructor
  · intro h
    simp [getDeploymentStatus, h]
  · intro record hrec
    simp only [getDeploymentStatus, hrec]
    refine ⟨_, rfl, ?_, ?_⟩
    · show (List.foldl aggStep (DStatus.success, none, record.completedAt) _).1 = _
      rw [aggFold_status, aggStatusSpec]
      simp
    · show (List.foldl aggStep (DStatus.success, none, record.completedAt) _).2.2 = _
      rw [aggFold_comp]
      exact maxCompletedSpec_absorb _ record (record_mem_group s hid record hrec)

/-- Witness for C6 on a concrete mixed-status group. -/
theorem status_aggregation_policy_witness :
    ∃ st, getDeploymentStatus groupState 1 = some st ∧
      st.status =
        aggStatusSpec (listHistoryForStartedAt groupState gsB.environment gsB.startedAt) ∧
      st.completedAt =
        maxCompletedSpec (listHistoryForStartedAt groupState gsB.environment gsB.startedAt) :=
  (status_aggregation_policy groupState 1).2 gsB rfl

/-- C10. Two history ids of the same `(environment, startedAt)` group yield
the same aggregate from `getStatus` — same environment, startedAt, status,
errorMessage, completedAt, durationSeconds and servicesDeployed — and only
the echoed `deploymentId` differs; in particular any member id works, not
only the group's first. -/
theorem group_members_report_same_aggregate (s : EngineState) (id1 id2 : Nat)
    (r1 r2 : HistoryEntry)
    (h1 : fetchHistory s id1 = some r1) (h2 : fetchHistory s id2 = some r2)
    (henv : r1.environment = r2.environment) (hstart : r1.startedAt = r2.startedAt) :
    ∃ st1 st2,
      getDeploymentStatus s id1 = some st1 ∧ getDeploymentStatus s id2 = some st2 ∧
      st1.environment = st2.environment ∧
      st1.startedAt = st2.startedAt ∧
      st1.status = st2.status ∧
      st1.errorMessage = st2.errorMessage ∧
      st1.completedAt = st2.completedAt ∧
      st1.durationSeconds = st2.durationSeconds ∧
      st1.servicesDeployed = st2.servicesDeployed ∧
      st1.deploymentId = (id1 : Int) ∧ st2.deploymentId = (id2 : Int) := by
  have hg : listHistoryForStartedAt s r1.environment r1.startedAt =
      listHistoryForStartedAt s r2.environment r2.startedAt := by
    rw [henv, hstart]
  have hm1 : r1 ∈ listHistoryForStartedAt s r1.environment r1.startedAt :=
    record_mem_group s id1 r1 h1
  have hm2 : r2 ∈ listHistoryForStartedAt s r2.environment r2.startedAt :=
    record_mem_group s id2 r2 h2
  have hcomp : (List.foldl aggStep (DStatus.success, none, r1.completedAt)
        (listHistoryForStartedAt s r1.environment r1.startedAt)).2.2 =
      (List.foldl aggStep (DStatus.success, none, r2.completedAt)
        (listHistoryForStartedAt s r2.environment r2.startedAt)).2.2 := by
    rw [hg, aggFold_comp, aggFold_comp,
      maxCompletedSpec_absorb _ r1 (hg ▸ hm1), maxCompletedSpec_absorb _ r2 hm2]
  simp only [getDeploymentStatus, h1, h2]
  refine ⟨_, _, rfl, rfl, henv, hstart, ?_, ?_, ?_, ?_, ?_, rfl, rfl⟩
  · show (List.foldl aggStep (DStatus.success, none, r1.completedAt) _).1 = _
    rw [hg]
    exact (aggFold_comp_irrel _ _ _ _ _).1
  · show (List.foldl aggStep (DStatus.success, none, r1.completedAt) _).2.1 = _
    rw [hg]
    exact (aggFold_comp_irrel _ _ _ _ _).2
  · exact hcomp
  · dsimp only
    rw [hcomp, hstart]
  · show List.map _ _ = List.map _ _
    rw [hg]

/-- Witness for C10 on the two production ids of the concrete group. -/
theorem group_members_report_same_aggregate_witness :
    ∃ st1 st2,
      getDeploymentStatus groupState 1 = some st1 ∧
      getDeploymentStatus groupState 2 = some st2 ∧
      st1.environment = st2.environment ∧
      st1.startedAt = st2.startedAt ∧
      st1.status = st2.status ∧
      st1.errorMessage = st2.errorMessage ∧
      st1.completedAt = st2.completedAt ∧
      st1.durationSeconds = st2.durationSeconds ∧
      st1.servicesDeployed = st2.servicesDeployed ∧
      st1.deploymentId = (1 : Int) ∧ st2.deploymentId = (2 : Int) :=
  group_members_report_same_aggregate groupState 1 2 gsB gsA rfl rfl rfl rfl

theorem lookupA_mem {l : List (String × String)} {k v : String}
    (h : lookupA l k = some v) : ∃ p ∈ l, p.2 = v := by
  rw [lookupA, Option.map_eq_some'] at h
  obtain ⟨p, hp, hv⟩ := h
  exact ⟨p, List.mem_of_find?_eq_some hp, hv⟩

/-- C7. The environment diff lists every service of the union of the two
service-name sets exactly once, sorted ascending by name, with the change
type dictated by the two looked-up versions (`no_change` on equal versions,
`version_bump` on differing ones, `new_service` when only preprod has the
service, `removed_service` when only prod has it); two absent states give
an empty diff. Versions are assumed non-empty strings (Python truthiness). -/
theorem diff_covers_union_sorted
    (prod preprod : Option EnvironmentState)
    (hp : ∀ p ∈ servicesOf prod, p.2 ≠ "")
    (hpp : ∀ p ∈ servicesOf preprod, p.2 ≠ "") :
    computeDiff none none = [] ∧
    ((computeDiff prod preprod).map (fun d => d.service)).Nodup ∧
    ((computeDiff prod preprod).map (fun d => d.service)).Sorted
      (fun a b => strLe a b = true) ∧
    (∀ n, n ∈ (computeDiff prod preprod).map (fun d => d.service) ↔
      (n ∈ (servicesOf prod).map (fun p => p.1) ∨
       n ∈ (servicesOf preprod).map (fun p => p.1))) ∧
    (∀ d ∈ computeDiff prod preprod,
      d.prodVersion = lookupA (servicesOf prod) d.service ∧
      d.preprodVersion = lookupA (servicesOf preprod) d.service ∧
      d.changeType = changeTypeSpec d.prodVersion d.preprodVersion) := by
  refine ⟨rfl, ?_⟩
  by_cases hb : prod = none ∧ preprod = none
  · obtain ⟨h1, h2⟩ := hb
    subst h1 h2
    refine ⟨by simp [computeDiff], by simp [computeDiff, List.Sorted], ?_, ?_⟩
    · intro n
      simp [computeDiff, servicesOf]
    · intro d hd
      simp [computeDiff] at hd
  · have hnames : (computeDiff prod preprod).map (fun d => d.service) =
        sortNames (((servicesOf prod).map (fun p => p.1) ++
          (servicesOf preprod).map (fun p => p.1)).dedup) := by
      rw [computeDiff, if_neg hb]
      rw [List.map_map]
      exact List.map_congr_left (fun svc _ => rfl) |>.trans (List.map_id' _)
    refine ⟨?_, ?_, ?_, ?_⟩
    · rw [hnames]
      exact sortNames_nodup (List.nodup_dedup _)
    · rw [hnames]
      exact sortNames_sorted _
    · intro n
      rw [hnames, mem_sortNames, List.mem_dedup, List.mem_append]
    · intro d hd
      rw [computeDiff, if_neg hb] at hd
      obtain ⟨svc, _, rfl⟩ := List.mem_map.mp hd
      refine ⟨rfl, rfl, ?_⟩
      show (if truthyOpt (lookupA (servicesOf prod) svc) ∧
            truthyOpt (lookupA (servicesOf preprod) svc) then _ else _) = _
      rcases hpv : lookupA (servicesOf prod) svc with _ | pv <;>
        rcases hppv : lookupA (servicesOf preprod) svc with _ | ppv
      · simp [truthyOpt, changeTypeSpec]
      · obtain ⟨q, hq, hqv⟩ := lookupA_mem hppv
        have : ppv ≠ "" := hqv ▸ hpp q hq
        simp [truthyOpt, changeTypeSpec, this]
      · obtain ⟨q, hq, hqv⟩ := lookupA_mem hpv
        have : pv ≠ "" := hqv ▸ hp q hq
        simp [truthyOpt, changeTypeSpec, this]
      · obtain ⟨q, hq, hqv⟩ := lookupA_mem hpv
        have h1 : pv ≠ "" := hqv ▸ hp q hq
        obtain ⟨q2, hq2, hqv2⟩ := lookupA_mem hppv
        have h2 : ppv ≠ "" := hqv2 ▸ hpp q2 hq2
        by_cases heq : pv = ppv <;>
          simp [truthyOpt, changeTypeSpec, h1, h2, heq]

/-- Witness for C7 on the spec's concrete jellyfin scenario. -/
theorem diff_covers_union_sorted_witness :
    computeDiff none none = [] ∧
    ((computeDiff (some ⟨"abc123", 1, [("jellyfin", "2025040803")]⟩)
        (some ⟨"def456", 2, [("jellyfin", "2025040900")]⟩)).map (fun d => d.service)).Nodup ∧
    ((computeDiff (some ⟨"abc123", 1, [("jellyfin", "2025040803")]⟩)
        (some ⟨"def456", 2, [("jellyfin", "2025040900")]⟩)).map (fun d => d.service)).Sorted
      (fun a b => strLe a b = true) ∧
    (∀ n, n ∈ (computeDiff (some ⟨"abc123", 1, [("jellyfin", "2025040803")]⟩)
        (some ⟨"def456", 2, [("jellyfin", "2025040900")]⟩)).map (fun d => d.service) ↔
      (n ∈ (servicesOf (some ⟨"abc123", 1, [("jellyfin", "2025040803")]⟩)).map (fun p => p.1) ∨
       n ∈ (servicesOf (some ⟨"def456", 2, [("jellyfin", "2025040900")]⟩)).map (fun p => p.1))) ∧
    (∀ d ∈ computeDiff (some ⟨"abc123", 1, [("jellyfin", "2025040803")]⟩)
        (some ⟨"def456", 2, [("jellyfin", "2025040900")]⟩),
      d.prodVersion = lookupA (servicesOf (some ⟨"abc123", 1, [("jellyfin", "2025040803")]⟩)) d.service ∧
      d.preprodVersion = lookupA (servicesOf (some ⟨"def456", 2, [("jellyfin", "2025040900")]⟩)) d.service ∧
      d.changeType = changeTypeSpec d.prodVersion d.preprodVersion) :=
  diff_covers_union_sorted (some ⟨"abc123", 1, [("jellyfin", "2025040803")]⟩)
    (some ⟨"def456", 2, [("jellyfin", "2025040900")]⟩) (by decide) (by decide)

theorem sortNames_eq_nil_iff (l : List String) : sortNames l = [] ↔ l = [] := by
  constructor
  · intro h
    have hlen := (sortNames_perm l).length_eq
    rw [h] at hlen
    exact List.eq_nil_of_length_eq_zero hlen.symm
  · intro h
    rw [h]
    rfl

theorem deploy_ok_exists (orch : Orch) (probe : Probe) (env : String)
    (tv : List (String × String)) (sha dby : String) (s : EngineState)
    (hact : truthyOpt s.activeEnvironment = false) (hne : tv ≠ []) :
    ∃ st s2, deploy orch probe env tv sha dby none s = (s2, Except.ok st) ∧
      s2.activeEnvironment = none := by
  have hsel : selectServices tv none = Except.ok (sortNames (tv.map (fun p => p.1))) := rfl
  have hne2 : sortNames (tv.map (fun p => p.1)) ≠ [] := by
    rw [Ne, sortNames_eq_nil_iff]
    intro h
    exact hne (List.map_eq_nil_iff.mp h)
  simp only [deploy, hact, Bool.false_eq_true, if_false]
  rcases horch : orch env ((sortNames (tv.map (fun p => p.1))).map
      (fun svc => (svc, (lookupA tv svc).getD ""))) with _ | err
  · rw [executeDeployment_success orch probe env tv sha dby none _ _ hsel hne2 horch]
    exact ⟨_, _, rfl, rfl⟩
  · rw [executeDeployment_failed orch probe env tv sha dby none _ _ err hsel hne2 horch]
    exact ⟨_, _, rfl, rfl⟩

theorem checkForChanges_calls_le_one (orch : Orch) (probe : Probe) (ef : EnvFile)
    (latest : Option String) (s : EngineState) :
    (checkForChanges orch probe ef latest s).2.2 ≤ 1 := by
  by_cases h1 : ef.services.isEmpty
  · simp [checkForChanges, h1]
  · by_cases h2 : some ef.commitSha = latest
    · simp [checkForChanges, h1, h2]
    · rcases hdep : deployPreprod orch probe ef.commitSha ef.services "system" s with ⟨s1, r⟩
      cases r <;> simp [checkForChanges, h1, h2, hdep]

/-- C3. Two consecutive poller iterations fetching the same commit SHA
trigger at most one deploy call in total; an iteration whose commit SHA
equals the last-seen SHA triggers no deployment; and the last-seen SHA
moves to the new commit only after the deploy call returns, whether the
returned status is success or failed. The `truthyOpt … = false` hypothesis
is the reachable-state invariant at the start of any iteration:
`_active_environment` is set only inside the lock-held critical section
and cleared before the lock is released (`deploy_clears_marker`), so the
poller's deploy call — serialized by the lock like every other — always
returns a status rather than raising. -/
theorem poller_consecutive_same_sha_at_most_one_deploy
    (orch : Orch) (probe : Probe) (ef1 ef2 : EnvFile) (latest : Option String)
    (s : EngineState)
    (hsha : ef1.commitSha = ef2.commitSha)
    (hact : truthyOpt s.activeEnvironment = false) :
    (some ef1.commitSha = latest → checkForChanges orch probe ef1 latest s = (latest, s, 0)) ∧
    ((checkForChanges orch probe ef1 latest s).1 = latest ∨
      ((checkForChanges orch probe ef1 latest s).1 = some ef1.commitSha ∧
        ∃ st s2, deployPreprod orch probe ef1.commitSha ef1.services "system" s =
          (s2, Except.ok st))) ∧
    (checkForChanges orch probe ef1 latest s).2.2 +
      (checkForChanges orch probe ef2 (checkForChanges orch probe ef1 latest s).1
        (checkForChanges orch probe ef1 latest s).2.1).2.2 ≤ 1 := by
  refine ⟨?_, ?_, ?_⟩
  · intro h
    by_cases h1 : ef1.services.isEmpty
    · simp [checkForChanges, h1]
    · simp [checkForChanges, h1, h]
  · by_cases h1 : ef1.services.isEmpty
    · left
      simp [checkForChanges, h1]
    · by_cases h2 : some ef1.commitSha = latest
      · left
        simp [checkForChanges, h1, h2]
      · right
        obtain ⟨st, s2, hdep, _⟩ := deploy_ok_exists orch probe "preprod" ef1.services
          ef1.commitSha "system" s hact (fun h => h1 (by rw [h]; rfl))
        have hdep2 : deployPreprod orch probe ef1.commitSha ef1.services "system" s =
            (s2, Except.ok st) := hdep
        refine ⟨?_, st, s2, hdep2⟩
        simp [checkForChanges, h1, h2, hdep2]
  · by_cases h1 : ef1.services.isEmpty
    · have e1 : checkForChanges orch probe ef1 latest s = (latest, s, 0) := by
        simp [checkForChanges, h1]
      rw [e1]
      simpa using checkForChanges_calls_le_one orch probe ef2 latest s
    · by_cases h2 : some ef1.commitSha = latest
      · have e1 : checkForChanges orch probe ef1 latest s = (latest, s, 0) := by
          simp [checkForChanges, h1, h2]
        rw [e1]
        simpa using checkForChanges_calls_le_one orch probe ef2 latest s
      · obtain ⟨st, s2, hdep, hact2⟩ := deploy_ok_exists orch probe "preprod" ef1.services
          ef1.commitSha "system" s hact (fun h => h1 (by rw [h]; rfl))
        have hdep2 : deployPreprod orch probe ef1.commitSha ef1.services "system" s =
            (s2, Except.ok st) := hdep
        have e1 : checkForChanges orch probe ef1 latest s = (some ef1.commitSha, s2, 1) := by
          simp [checkForChanges, h1, h2, hdep2]
        rw [e1]
        have e2 : checkForChanges orch probe ef2 (some ef1.commitSha) s2 =
            (some ef1.commitSha, s2, 0) := by
          by_cases h3 : ef2.services.isEmpty
          · simp [checkForChanges, h3]
          · have hq : some ef2.commitSha = some ef1.commitSha := by rw [hsha]
            simp [checkForChanges, h3, hq]
        rw [e2]
        exact Nat.le_refl 1

/-- Witness for C3 on a concrete idle engine. -/
theorem poller_consecutive_same_sha_at_most_one_deploy_witness :
    (some "abc" = (none : Option String) →
      checkForChanges orchOkE probeStub ⟨"abc", [("a", "1")]⟩ none emptyState =
        (none, emptyState, 0)) ∧
    ((checkForChanges orchOkE probeStub ⟨"abc", [("a", "1")]⟩ none emptyState).1 = none ∨
      ((checkForChanges orchOkE probeStub ⟨"abc", [("a", "1")]⟩ none emptyState).1 =
          some "abc" ∧
        ∃ st s2, deployPreprod orchOkE probeStub "abc" [("a", "1")] "system" emptyState =
          (s2, Except.ok st))) ∧
    (checkForChanges orchOkE probeStub ⟨"abc", [("a", "1")]⟩ none emptyState).2.2 +
      (checkForChanges orchOkE probeStub ⟨"abc", [("a", "1")]⟩
        (checkForChanges orchOkE probeStub ⟨"abc", [("a", "1")]⟩ none emptyState).1
        (checkForChanges orchOkE probeStub ⟨"abc", [("a", "1")]⟩ none emptyState).2.1).2.2 ≤ 1 :=
  poller_consecutive_same_sha_at_most_one_deploy orchOkE probeStub ⟨"abc", [("a", "1")]⟩
    ⟨"abc", [("a", "1")]⟩ none emptyState rfl rfl

theorem lookupA_isSome_of_mem_keys {l : List (String × String)} {k : String}
    (h : k ∈ l.map (fun p => p.1)) : (lookupA l k).isSome := by
  obtain ⟨p, hp, rfl⟩ := List.mem_map.mp h
  rw [lookupA, Option.isSome_map']
  rw [List.find?_isSome]
  exact ⟨p, hp, by simp⟩

theorem filter_keys_self (l : List (String × String)) :
    (l.map (fun p => p.1)).filter (fun n => (lookupA l n).isSome) =
      l.map (fun p => p.1) :=
  List.filter_eq_self.mpr (fun _ ha => lookupA_isSome_of_mem_keys ha)

theorem assocUpsert_ne_nil (l : List (String × String)) (k v : String) :
    assocUpsert l k v ≠ [] := by
  rw [assocUpsert]
  split_ifs with h
  · intro hc
    rw [List.map_eq_nil_iff] at hc
    rw [hc] at h
    simp at h
  · simp

theorem foldl_assocUpsert_ne_nil :
    ∀ (g : List HistoryEntry) (acc : List (String × String)), acc ≠ [] →
    g.foldl (fun acc e => assocUpsert acc e.serviceName e.version) acc ≠ []
  | [], _, h => h
  | e :: g, acc, _ =>
      foldl_assocUpsert_ne_nil g (assocUpsert acc e.serviceName e.version)
        (assocUpsert_ne_nil acc e.serviceName e.version)

theorem reconstructServices_ne_nil {g : List HistoryEntry} (h : g ≠ []) :
    reconstructServices g ≠ [] := by
  rcases g with _ | ⟨e, g⟩
  · exact absurd rfl h
  · rw [reconstructServices, List.foldl_cons]
    exact foldl_assocUpsert_ne_nil g _ (assocUpsert_ne_nil [] e.serviceName e.version)

theorem selectServices_keys_subset (m : List (String × String)) (hm : m ≠ []) :
    selectServices m (some (m.map (fun p => p.1))) =
      Except.ok (sortNames (m.map (fun p => p.1))) := by
  rw [selectServices]
  rw [filter_keys_self]
  rw [if_neg]
  intro hc
  rw [List.isEmpty_iff, List.map_eq_nil_iff] at hc
  exact hm hc

/-- C4. Rolling back a production history id replays the group as a forward
production deployment: the call is literally `deploy_prod` with the
service→version map reconstructed from the group's entries as both target
and subset and `deployedBy = "manual"`; an unknown id, or one outside
production, is rejected with `NotFound`, leaving the state untouched and
triggering no deployment. -/
theorem rollback_is_replayed_forward_deploy (orch : Orch) (probe : Probe)
    (s : EngineState) (hid : Nat) :
    (∀ record, fetchHistory s hid = some record → record.environment = "prod" →
      rollbackProd orch probe true (some hid) s =
        deployProd orch probe
          (reconstructServices (listHistoryForStartedAt s record.environment record.startedAt))
          record.commitSha "manual"
          (some ((reconstructServices
            (listHistoryForStartedAt s record.environment record.startedAt)).map
              (fun p => p.1))) s) ∧
    (fetchHistory s hid = none →
      rollbackProd orch probe true (some hid) s =
        (s, Except.error (RmError.notFound "Production deployment record not found"))) ∧
    (∀ record, fetchHistory s hid = some record → record.environment ≠ "prod" →
      rollbackProd orch probe true (some hid) s =
        (s, Except.error (RmError.notFound "Production deployment record not found"))) ∧
    (∀ record, fetchHistory s hid = some record → record.environment = "prod" →
      truthyOpt s.activeEnvironment = false → idsBounded s →
      ∃ st s2, rollbackProd orch probe true (some hid) s = (s2, Except.ok st) ∧
        st.environment = "prod" ∧
        st.servicesDeployed.map (fun p => p.name) =
          sortNames ((reconstructServices
            (listHistoryForStartedAt s record.environment record.startedAt)).map
              (fun p => p.1))) := by
  have hpos : ∀ record, fetchHistory s hid = some record → record.environment = "prod" →
      rollbackProd orch probe true (some hid) s =
        deployProd orch probe
          (reconstructServices (listHistoryForStartedAt s record.environment record.startedAt))
          record.commitSha "manual"
          (some ((reconstructServices
            (listHistoryForStartedAt s record.environment record.startedAt)).map
              (fun p => p.1))) s := by
    intro record hrec hprod
    simp [rollbackProd, hrec, hprod, reconstructServices, deployProd]
  refine ⟨hpos, ?_, ?_, ?_⟩
  · intro h
    simp [rollbackProd, h]
  · intro record hrec hprod
    simp [rollbackProd, hrec, hprod]
  · intro record hrec hprod hact hids
    rw [hpos record hrec hprod]
    have hgne : listHistoryForStartedAt s record.environment record.startedAt ≠ [] :=
      List.ne_nil_of_mem (record_mem_group s hid record hrec)
    have hmne : reconstructServices
        (listHistoryForStartedAt s record.environment record.startedAt) ≠ [] :=
      reconstructServices_ne_nil hgne
    have hsel := selectServices_keys_subset
      (reconstructServices (listHistoryForStartedAt s record.environment record.startedAt)) hmne
    have hne2 : sortNames ((reconstructServices
        (listHistoryForStartedAt s record.environment record.startedAt)).map
          (fun p => p.1)) ≠ [] := by
      rw [Ne, sortNames_eq_nil_iff, List.map_eq_nil_iff]
      exact hmne
    obtain ⟨st, s2, entries, hdep, _, _, _, _, _, _, henv2, hpay, _, _, _⟩ :=
      deploy_ok_char orch probe "prod"
        (reconstructServices (listHistoryForStartedAt s record.environment record.startedAt))
        record.commitSha "manual"
        (some ((reconstructServices
          (listHistoryForStartedAt s record.environment record.startedAt)).map
            (fun p => p.1))) s _ hact hsel hne2 hids
    exact ⟨st, s2, hdep, henv2, by rw [hpay]⟩

/-- Witness for C4: replaying the concrete production group and rejecting a
preprod id. -/
theorem rollback_is_replayed_forward_deploy_witness :
    (rollbackProd orchOkE probeStub true (some 1) groupState =
      deployProd orchOkE probeStub
        (reconstructServices (listHistoryForStartedAt groupState gsB.environment gsB.startedAt))
        gsB.commitSha "manual"
        (some ((reconstructServices
          (listHistoryForStartedAt groupState gsB.environment gsB.startedAt)).map
            (fun p => p.1))) groupState) ∧
    (rollbackProd orchOkE probeStub true (some 3) groupState =
      (groupState, Except.error (RmError.notFound "Production deployment record not found"))) ∧
    (∃ st s2, rollbackProd orchOkE probeStub true (some 1) groupState = (s2, Except.ok st) ∧
      st.environment = "prod" ∧
      st.servicesDeployed.map (fun p => p.name) =
        sortNames ((reconstructServices
          (listHistoryForStartedAt groupState gsB.environment gsB.startedAt)).map
            (fun p => p.1))) :=
  ⟨(rollback_is_replayed_forward_deploy orchOkE probeStub groupState 1).1 gsB rfl rfl,
   (rollback_is_replayed_forward_deploy orchOkE probeStub groupState 3).2.2.1 gsPre rfl
     (by decide),
   (rollback_is_replayed_forward_deploy orchOkE probeStub groupState 1).2.2.2 gsB rfl rfl rfl
     (show ∀ e ∈ groupState.history, e.id < groupState.nextId by decide)⟩

/-- Witness for C9: deploying an empty target map. -/
theorem empty_selection_rejected_without_side_effects_witness :
    ∃ msg, deploy orchOkE probeStub "prod" [] "c9" "manual" none emptyState =
      (emptyState, Except.error (RmError.invalidRequest msg)) :=
  empty_selection_rejected_without_side_effects orchOkE probeStub "prod" [] "c9" "manual"
    none emptyState rfl (Or.inl ⟨rfl, rfl⟩)

end ReleaseManager
